import Mathlib

/-!
Verification development for the UI accessibility-tree parser and
element-resolution engine of an iOS-simulator automation bridge
(`ui_tree.py`: `UIElement`, `UITreeParser`, `find_element_by_predicate`).

The Python code is shallowly embedded: trees are rose trees, the
mutable flat-list/index-counter state of the recursive parsers is
threaded explicitly, and Python exceptions become `Except` results.
-/

namespace UITree

/-- Python truthiness of an optional string: `None` and `""` are falsy. -/
def pyTruthy : Option String → Bool
  | none => false
  | some s => s ≠ ""

/-- Python `a or b` on optional strings: `a` when truthy, else `b`. -/
def pyOr (a b : Option String) : Option String :=
  if pyTruthy a then a else b

/-- Python `s.lower()`, restricted to ASCII case mapping. -/
def pyLower (s : String) : String :=
  ⟨s.data.map Char.toLower⟩

/-- Python `needle in haystack` on character lists (substring test). -/
def pyInAux (needle : List Char) : List Char → Bool
  | [] => needle.isEmpty
  | c :: rest => needle.isPrefixOf (c :: rest) || pyInAux needle rest

/-- Python `needle in haystack` on strings. -/
def pyIn (needle haystack : String) : Bool :=
  pyInAux needle.data haystack.data

/-- Python `s.startswith(pre)`. -/
def pyStartsWith (s pre : String) : Bool :=
  pre.data.isPrefixOf s.data

/-- A rose tree: the common shape of the JSON document, the XML
document, and the parsed `UIElement` hierarchy (each node owns an
ordered list of children). -/
inductive Rose (α : Type) : Type where
  | mk (head : α) (children : List (Rose α)) : Rose α

def Rose.head : Rose α → α
  | .mk a _ => a

def Rose.children : Rose α → List (Rose α)
  | .mk _ cs => cs

mutual

/-- Map a function over every node of a rose tree (used to encode one
abstract logical tree in both wire formats). -/
def Rose.map (f : α → β) : Rose α → Rose β
  | .mk a cs => .mk (f a) (Rose.mapList f cs)

def Rose.mapList (f : α → β) : List (Rose α) → List (Rose β)
  | [] => []
  | t :: ts => Rose.map f t :: Rose.mapList f ts

end

/-- The per-node fields of `UIElement` other than `index` and
`children` (dataclass `UIElement` in `ui_tree.py`). -/
structure ElemAttrs where
  element_type : String
  label : Option String := none
  name : Option String := none
  value : Option String := none
  identifier : Option String := none
  enabled : Bool := true
  visible : Bool := true
  accessible : Bool := true
  x : Int := 0
  y : Int := 0
  width : Int := 0
  height : Int := 0
deriving Repr, DecidableEq

/-- All scalar fields of `UIElement` (the Python dataclass minus
`children`, which lives in the rose-tree structure). -/
structure UIData extends ElemAttrs where
  index : Nat
deriving Repr, DecidableEq

/-- The parsed element tree: `UIElement` with its `children` list. -/
abbrev UIElement : Type := Rose UIData

def UIElement.index (e : UIElement) : Nat := e.head.index
def UIElement.element_type (e : UIElement) : String := e.head.element_type
def UIElement.label (e : UIElement) : Option String := e.head.label
def UIElement.name (e : UIElement) : Option String := e.head.name
def UIElement.value (e : UIElement) : Option String := e.head.value
def UIElement.identifier (e : UIElement) : Option String := e.head.identifier
def UIElement.enabled (e : UIElement) : Bool := e.head.enabled
def UIElement.visible (e : UIElement) : Bool := e.head.visible
def UIElement.accessible (e : UIElement) : Bool := e.head.accessible
def UIElement.x (e : UIElement) : Int := e.head.x
def UIElement.y (e : UIElement) : Int := e.head.y
def UIElement.width (e : UIElement) : Int := e.head.width
def UIElement.height (e : UIElement) : Int := e.head.height

/-- Property `UIElement.center_x`: `x + width // 2` (Python floor division). -/
def UIElement.center_x (e : UIElement) : Int := e.x + Int.fdiv e.width 2

/-- Property `UIElement.center_y`: `y + height // 2` (Python floor division). -/
def UIElement.center_y (e : UIElement) : Int := e.y + Int.fdiv e.height 2

/-- The `display_text` computation on bare attributes: first truthy of
label, name, value, identifier, else `""` (`UIElement.display_text`).
The `value` field is modelled as a string, so Python's `str(value)`
conversion is the identity. -/
def ElemAttrs.displayTextOf (a : ElemAttrs) : String :=
  if pyTruthy a.label then a.label.getD ""
  else if pyTruthy a.name then a.name.getD ""
  else if pyTruthy a.value then a.value.getD ""
  else if pyTruthy a.identifier then a.identifier.getD ""
  else ""

/-- Property `UIElement.display_text`. -/
def UIElement.display_text (e : UIElement) : String :=
  e.head.toElemAttrs.displayTextOf

mutual

/-- The pre-order listing of a parsed tree: node first, then the
pre-order listings of its children in order. -/
def preorder : UIElement → List UIElement
  | .mk d cs => .mk d cs :: preorderList cs

def preorderList : List UIElement → List UIElement
  | [] => []
  | e :: es => preorder e ++ preorderList es

end

/-- Attach an index to extracted attributes, forming the element's
scalar data (the `UIElement(...)` constructor call in both parsers). -/
def uiData (idx : Nat) (a : ElemAttrs) : UIData :=
  { a with index := idx }

mutual

/-- The recursive descent shared verbatim by `_parse_json.parse_element`
and `_parse_xml.parse_element`: extract the node's attributes with
`ex`; if the filter `dr` rejects them, return no element, an unchanged
counter, and no flat-list entries (the whole subtree is skipped);
otherwise create the element at the current index, advance the
counter, recurse into the children in order, keep the children that
parsed to an element, and put the element before its descendants in
the flat list (Python appends it before recursing, and the flat list
aliases the same node that later receives its children). -/
def parseTree (ex : α → ElemAttrs) (dr : ElemAttrs → Bool) :
    Rose α → Nat → Option UIElement × Nat × List UIElement
  | .mk a cs, idx =>
    let props := ex a
    if dr props then (none, idx, [])
    else
      let r := parseTreeList ex dr cs (idx + 1)
      let e : UIElement := .mk (uiData idx props) r.1
      (some e, r.2.1, e :: r.2.2)

def parseTreeList (ex : α → ElemAttrs) (dr : ElemAttrs → Bool) :
    List (Rose α) → Nat → List UIElement × Nat × List UIElement
  | [], idx => ([], idx, [])
  | t :: ts, idx =>
    let r := parseTree ex dr t idx
    let rr := parseTreeList ex dr ts r.2.1
    match r.1 with
    | some e => (e :: rr.1, rr.2.1, r.2.2 ++ rr.2.2)
    | none => (rr.1, rr.2.1, r.2.2 ++ rr.2.2)

end

/-- The `rect` sub-object of a JSON node; an absent field defaults to
`0` (`rect.get("x", 0)` etc.). -/
structure JsonRect where
  x : Option Int := none
  y : Option Int := none
  width : Option Int := none
  height : Option Int := none
deriving Repr, DecidableEq

/-- The fields `_parse_json.parse_element` reads from one JSON node
(`elem_data.get(...)`); `none` models an absent key. Numeric rect
entries are modelled by their integer value after Python's `int(...)`
truncation. -/
structure JsonAttrs where
  type? : Option String := none
  label : Option String := none
  name : Option String := none
  value : Option String := none
  identifier : Option String := none
  isEnabled : Option Bool := none
  enabled : Option Bool := none
  isVisible : Option Bool := none
  visible : Option Bool := none
  isAccessible : Option Bool := none
  accessible : Option Bool := none
  rect : Option JsonRect := none
deriving Repr, DecidableEq

/-- A JSON hierarchy document: nested records whose `children` arrays
are the rose-tree children (`elem_data.get("children", [])`). -/
abbrev JsonNode : Type := Rose JsonAttrs

/-- Attribute extraction of `_parse_json.parse_element` (`ui_tree.py`
lines 113-128): `type` defaults to `"Unknown"`, each flag tries the
`isX` key first, then `X`, then `True`, and bounds come from the
`rect` object with default `0`. -/
def jsonExtract (a : JsonAttrs) : ElemAttrs :=
  let rect := a.rect.getD {}
  { element_type := a.type?.getD "Unknown"
    label := a.label
    name := a.name
    value := a.value
    identifier := a.identifier
    enabled := a.isEnabled.getD (a.enabled.getD true)
    visible := a.isVisible.getD (a.visible.getD true)
    accessible := a.isAccessible.getD (a.accessible.getD true)
    x := rect.x.getD 0
    y := rect.y.getD 0
    width := rect.width.getD 0
    height := rect.height.getD 0 }

/-- The element types `_parse_json.parse_element` treats as
non-interactive (`non_interactive` set, line 139). -/
def nonInteractiveTypes : List String := ["Other", "StaticText", "Group", "Cell"]

/-- The filter of `_parse_json.parse_element` (lines 130-141): drop
invisible nodes under `only_visible`; under `only_interactable`
additionally drop disabled or non-accessible nodes, and nodes of a
non-interactive type whose label and name are both falsy. -/
def jsonDrop (only_visible only_interactable : Bool) (p : ElemAttrs) : Bool :=
  (only_visible && !p.visible) ||
  (only_interactable && (!p.enabled || !p.accessible)) ||
  (only_interactable && nonInteractiveTypes.contains p.element_type &&
    !pyTruthy p.label && !pyTruthy p.name)

/-- Method `UITreeParser._parse_json`: run the recursive descent from the
given counter value, returning `(root, final counter, flat list)`. -/
def parse_json (d : JsonNode) (only_visible only_interactable : Bool) (idx : Nat) :
    Option UIElement × Nat × List UIElement :=
  parseTree jsonExtract (jsonDrop only_visible only_interactable) d idx

/-- The attributes `_parse_xml.parse_element` reads from one XML
element: its tag and its attribute strings (`none` models an absent
attribute). The numeric position attributes are modelled by their
integer value after Python's `int(float(...))` truncation. -/
structure XmlAttrs where
  tag : String := ""
  type? : Option String := none
  label : Option String := none
  accessibilityLabel : Option String := none
  name : Option String := none
  value : Option String := none
  accessibilityIdentifier : Option String := none
  identifier : Option String := none
  enabled : Option String := none
  visible : Option String := none
  accessible : Option String := none
  x : Option Int := none
  y : Option Int := none
  width : Option Int := none
  height : Option Int := none
deriving Repr, DecidableEq

/-- A well-formed XML hierarchy document (the element tree produced by
`ET.fromstring` when the input string parses). -/
abbrev XmlNode : Type := Rose XmlAttrs

/-- Attribute extraction of `_parse_xml.parse_element` (`ui_tree.py`
lines 186-200): the type defaults to the tag, `label`/`identifier`
fall back across attribute variants with Python `or`, the flags are
the string `"true"` compared case-insensitively with default
`"true"`, and bounds default to `0`. -/
def xmlExtract (a : XmlAttrs) : ElemAttrs :=
  { element_type := a.type?.getD a.tag
    label := pyOr a.label a.accessibilityLabel
    name := a.name
    value := a.value
    identifier := pyOr a.accessibilityIdentifier a.identifier
    enabled := pyLower (a.enabled.getD "true") == "true"
    visible := pyLower (a.visible.getD "true") == "true"
    accessible := pyLower (a.accessible.getD "true") == "true"
    x := a.x.getD 0
    y := a.y.getD 0
    width := a.width.getD 0
    height := a.height.getD 0 }

/-- The filter of `_parse_xml.parse_element` (lines 202-208): drop
invisible nodes under `only_visible`, and disabled or non-accessible
nodes under `only_interactable`. Unlike the JSON path, there is no
non-interactive-type check. -/
def xmlDrop (only_visible only_interactable : Bool) (p : ElemAttrs) : Bool :=
  (only_visible && !p.visible) ||
  (only_interactable && (!p.enabled || !p.accessible))

/-- Method `UITreeParser._parse_xml` (lines 174-242). Its input is the result
of `ET.fromstring(xml_string)`: a tree when the string is well-formed
XML, otherwise the `ParseError` message, which the method wraps in a
`ValueError` (modelled as `Except.error`). -/
def parse_xml (src : Except String XmlNode) (only_visible only_interactable : Bool)
    (idx : Nat) : Except String (Option UIElement × Nat × List UIElement) :=
  match src with
  | .error e => .error ("Failed to parse XML: " ++ e)
  | .ok root => .ok (parseTree xmlExtract (xmlDrop only_visible only_interactable) root idx)

/-- The `UITreeParser` instance state: the `_index_counter` field set
in `__init__` and mutated during parses. -/
structure UITreeParser where
  index_counter : Nat
deriving Repr, DecidableEq

/-- The `source` argument of `UITreeParser.parse`: either a JSON dict
or an XML string (the latter carried as its `ET.fromstring` outcome). -/
inductive WdaSource : Type where
  | json (d : JsonNode)
  | xml (s : Except String XmlNode)

/-- Method `UITreeParser.parse` (lines 78-101): reset `_index_counter` to 0,
then dispatch on the runtime type of `source`. Returns the parser's
final state together with the result (`Except.error` models the
`ValueError` raised on malformed XML). -/
def UITreeParser.parse (_self : UITreeParser) (source : WdaSource)
    (only_visible : Bool := true) (only_interactable : Bool := false) :
    UITreeParser × Except String (Option UIElement × List UIElement) :=
  let counter0 : Nat := 0
  match source with
  | .json d =>
    let r := parse_json d only_visible only_interactable counter0
    (⟨r.2.1⟩, .ok (r.1, r.2.2))
  | .xml s =>
    match parse_xml s only_visible only_interactable counter0 with
    | .error e => (⟨counter0⟩, .error e)
    | .ok r => (⟨r.2.1⟩, .ok (r.1, r.2.2))

/-- A predicate passed to `find_element_by_predicate`; `none` models an
absent key of the predicate dict (`predicate.get(...)`). -/
structure Predicate where
  text : Option String := none
  text_contains : Option String := none
  text_starts_with : Option String := none
  type? : Option String := none
  label : Option String := none
  identifier : Option String := none
  index : Option Int := none
  bounds_hint : Option String := none
deriving Repr, DecidableEq

/-- One filter of the matching loop: Python tests `if field and ...`,
so an absent or empty field means the filter is skipped (keeps the
element); otherwise the check decides. -/
def filterOn (field : Option String) (check : String → Bool) : Bool :=
  match field with
  | none => true
  | some s => if s = "" then true else check s

/-- The `bounds_hint` filter (lines 366-380): keep an element exactly
when the `continue` of its branch does not fire, against the
hard-coded 390x844 reference frame; an unknown hint keeps everything. -/
def boundsHintKeep (hint : String) (e : UIElement) : Bool :=
  if hint == "top_half" then decide (e.center_y ≤ 422)
  else if hint == "bottom_half" then decide (422 < e.center_y)
  else if hint == "left_half" then decide (e.center_x ≤ 195)
  else if hint == "right_half" then decide (195 < e.center_x)
  else if hint == "center" then
    decide (150 < e.center_x && e.center_x < 240 && 300 < e.center_y && e.center_y < 544)
  else true

/-- The loop body of `find_element_by_predicate` (lines 337-382): an
element is appended to `matches` exactly when no filter's `continue`
fires. -/
def matchesPredicate (p : Predicate) (elem : UIElement) : Bool :=
  let elem_text := pyLower elem.display_text
  filterOn p.type? (fun t => pyLower elem.element_type == pyLower t) &&
  filterOn p.label (fun l => elem.label == some l) &&
  filterOn p.identifier (fun i => elem.identifier == some i) &&
  filterOn p.text (fun t => elem.display_text == t) &&
  filterOn p.text_contains (fun t => pyIn (pyLower t) elem_text) &&
  filterOn p.text_starts_with (fun t => pyStartsWith elem_text (pyLower t)) &&
  filterOn p.bounds_hint (fun b => boundsHintKeep b elem)

/-- Python list subscription `l[i]`: non-negative indices count from
the front, negative ones from the back, anything else raises
`IndexError: list index out of range`. -/
def pyListGet (l : List α) (i : Int) : Except String α :=
  let j : Int := if i < 0 then (l.length : Int) + i else i
  if 0 ≤ j then
    match l[j.toNat]? with
    | some a => .ok a
    | none => .error "list index out of range"
  else .error "list index out of range"

/-- Function `find_element_by_predicate` (lines 310-390): filter the flat list,
return `none` on no match, clamp a too-large `index` to the last
match, and otherwise subscript the match list with the given index
(Python semantics, so negative indices count from the end and can
raise `IndexError`). -/
def find_element_by_predicate (elements : List UIElement) (predicate : Predicate) :
    Except String (Option UIElement) :=
  let select_index := predicate.index.getD 0
  let ms := elements.filter (matchesPredicate predicate)
  if ms.isEmpty then .ok none
  else if (ms.length : Int) ≤ select_index then
    (pyListGet ms (-1)).map some
  else
    (pyListGet ms select_index).map some

/-- One line of `format_flat_list` output: `[index] type "text"`, the
quoted part only when the display text is truthy. -/
def flatLine (e : UIElement) : String :=
  let text := e.display_text
  let text_part := if text ≠ "" then " \"" ++ text ++ "\"" else ""
  "[" ++ toString e.index ++ "] " ++ e.element_type ++ text_part

/-- The verbose variant of a flat-list line, with center and size. -/
def flatLineVerbose (e : UIElement) : String :=
  let text := e.display_text
  let text_part := if text ≠ "" then " \"" ++ text ++ "\"" else ""
  "[" ++ toString e.index ++ "] " ++ e.element_type ++ text_part ++
    " @ (" ++ toString e.center_x ++ "," ++ toString e.center_y ++ ") [" ++
    toString e.width ++ "x" ++ toString e.height ++ "]"

/-- The element types always shown by non-verbose `format_flat_list`
(the tuple at lines 299-304). -/
def alwaysShownTypes : List String := ["Button", "TextField", "SecureTextField", "Switch"]

/-- The `lines` list built by `UITreeParser.format_flat_list` (lines
279-307), one loop iteration per element in order: in verbose mode one
line per element; otherwise a line only for elements with truthy
display text or a whitelisted type. -/
def format_flat_list_lines (elements : List UIElement) (verbose : Bool) : List String :=
  match elements with
  | [] => []
  | elem :: rest =>
    (if verbose then [flatLineVerbose elem]
     else if elem.display_text ≠ "" || alwaysShownTypes.contains elem.element_type then
       [flatLine elem]
     else []) ++ format_flat_list_lines rest verbose

/-- Method `UITreeParser.format_flat_list`: the joined lines. -/
def format_flat_list (elements : List UIElement) (verbose : Bool) : String :=
  String.intercalate "\n" (format_flat_list_lines elements verbose)


mutual

theorem parseTree_struct (ex : α → ElemAttrs) (dr : ElemAttrs → Bool) (t : Rose α) (idx : Nat) :
    (parseTree ex dr t idx).2.1 = idx + (parseTree ex dr t idx).2.2.length ∧
    (parseTree ex dr t idx).2.2.map UIElement.index =
      List.range' idx (parseTree ex dr t idx).2.2.length ∧
    (parseTree ex dr t idx).2.2 = (parseTree ex dr t idx).1.elim [] preorder := by
  cases t with
  | mk a cs =>
    rw [parseTree]
    by_cases h : dr (ex a)
    · simp [h]
    · have ih := parseTreeList_struct ex dr cs (idx + 1)
      rw [if_neg (by simp [h])]
      refine ⟨?_, ?_, ?_⟩
      · have h1 := ih.1
        simp only [List.length_cons]
        omega
      · simp only [List.map_cons, List.length_cons]
        rw [List.range'_succ, ih.2.1]
        simp [UIElement.index, Rose.head, uiData]
      · simp only [Option.elim_some]
        rw [preorder]
        exact congrArg _ ih.2.2

theorem parseTreeList_struct (ex : α → ElemAttrs) (dr : ElemAttrs → Bool) (ts : List (Rose α)) (idx : Nat) :
    (parseTreeList ex dr ts idx).2.1 = idx + (parseTreeList ex dr ts idx).2.2.length ∧
    (parseTreeList ex dr ts idx).2.2.map UIElement.index =
      List.range' idx (parseTreeList ex dr ts idx).2.2.length ∧
    (parseTreeList ex dr ts idx).2.2 = preorderList (parseTreeList ex dr ts idx).1 := by
  cases ts with
  | nil => simp [parseTreeList, preorderList]
  | cons t rest =>
    have iht := parseTree_struct ex dr t idx
    have ihr := parseTreeList_struct ex dr rest (parseTree ex dr t idx).2.1
    rw [parseTreeList]
    cases hh : (parseTree ex dr t idx).1 with
    | some e =>
      have hpre : (parseTree ex dr t idx).2.2 = preorder e := by
        have := iht.2.2; rw [hh] at this; simpa using this
      refine ⟨?_, ?_, ?_⟩
      · simp only [List.length_append]
        have h1 := iht.1
        have h2 := ihr.1
        omega
      · rw [List.map_append, iht.2.1, ihr.2.1, iht.1, List.length_append]
        have h := List.range'_append_1 idx ((parseTree ex dr t idx).2.2.length)
          ((parseTreeList ex dr rest (idx + (parseTree ex dr t idx).2.2.length)).2.2.length)
        rw [Nat.add_comm
          ((parseTreeList ex dr rest (idx + (parseTree ex dr t idx).2.2.length)).2.2.length)
          ((parseTree ex dr t idx).2.2.length)] at h
        exact h
      · rw [preorderList, ← ihr.2.2, hpre]
    | none =>
      have hflat : (parseTree ex dr t idx).2.2 = [] := by
        have := iht.2.2; rw [hh] at this; simpa using this
      have hidx : (parseTree ex dr t idx).2.1 = idx := by
        have := iht.1; rw [hflat] at this; simpa using this
      rw [hidx] at ihr
      rw [hflat, hidx]
      simpa using ihr

end

/-- The fields of an element that the format-equivalence property
compares: index, element type, display text, and bounds. -/
def elemView (e : UIElement) : Nat × String × String × Int × Int × Int × Int :=
  (e.index, e.element_type, e.display_text, e.x, e.y, e.width, e.height)

/-- The part of extracted attributes that `elemView` depends on. -/
def attrsView (a : ElemAttrs) : String × String × Int × Int × Int × Int :=
  (a.element_type, a.displayTextOf, a.x, a.y, a.width, a.height)

mutual

/-- Parsing a mapped tree is parsing with the composed extraction. -/
theorem parseTree_map (ex : β → ElemAttrs) (dr : ElemAttrs → Bool) (f : α → β)
    (t : Rose α) (idx : Nat) :
    parseTree ex dr (Rose.map f t) idx = parseTree (fun a => ex (f a)) dr t idx := by
  cases t with
  | mk a cs =>
    rw [Rose.map, parseTree, parseTree]
    by_cases h : dr (ex (f a))
    · simp [h]
    · rw [if_neg (by simpa using h), if_neg (by simpa using h)]
      rw [parseTreeList_map ex dr f cs (idx + 1)]

theorem parseTreeList_map (ex : β → ElemAttrs) (dr : ElemAttrs → Bool) (f : α → β)
    (ts : List (Rose α)) (idx : Nat) :
    parseTreeList ex dr (Rose.mapList f ts) idx = parseTreeList (fun a => ex (f a)) dr ts idx := by
  cases ts with
  | nil => rw [Rose.mapList, parseTreeList, parseTreeList]
  | cons t rest =>
    rw [Rose.mapList, parseTreeList, parseTreeList]
    rw [parseTree_map ex dr f t idx, parseTreeList_map ex dr f rest]

end

mutual

/-- Two parsers (over the same document tree) whose extractions agree
on the compared view and whose filters take the same decisions produce
flat lists with equal element views, the same counter, and a root on
the same side of `Option`. -/
theorem parseTree_congr (ex1 ex2 : α → ElemAttrs) (dr1 dr2 : ElemAttrs → Bool)
    (hview : ∀ a, attrsView (ex2 a) = attrsView (ex1 a))
    (hdrop : ∀ a, dr2 (ex2 a) = dr1 (ex1 a)) (t : Rose α) (idx : Nat) :
    (parseTree ex2 dr2 t idx).1.isSome = (parseTree ex1 dr1 t idx).1.isSome ∧
    (parseTree ex2 dr2 t idx).2.1 = (parseTree ex1 dr1 t idx).2.1 ∧
    (parseTree ex2 dr2 t idx).2.2.map elemView = (parseTree ex1 dr1 t idx).2.2.map elemView := by
  cases t with
  | mk a cs =>
    rw [parseTree, parseTree]
    by_cases h : dr1 (ex1 a)
    · simp [h, hdrop a]
    · have ih := parseTreeList_congr ex1 ex2 dr1 dr2 hview hdrop cs (idx + 1)
      rw [if_neg (by rw [hdrop a]; simpa using h), if_neg (by simpa using h)]
      refine ⟨rfl, ih.1, ?_⟩
      simp only [List.map_cons]
      rw [ih.2]
      have hv := hview a
      simp only [attrsView, Prod.mk.injEq] at hv
      simp [elemView, UIElement.index, UIElement.element_type, UIElement.display_text,
        UIElement.x, UIElement.y, UIElement.width, UIElement.height, Rose.head, uiData,
        hv.1, hv.2.1, hv.2.2.1, hv.2.2.2.1, hv.2.2.2.2.1, hv.2.2.2.2.2]

theorem parseTreeList_congr (ex1 ex2 : α → ElemAttrs) (dr1 dr2 : ElemAttrs → Bool)
    (hview : ∀ a, attrsView (ex2 a) = attrsView (ex1 a))
    (hdrop : ∀ a, dr2 (ex2 a) = dr1 (ex1 a)) (ts : List (Rose α)) (idx : Nat) :
    (parseTreeList ex2 dr2 ts idx).2.1 = (parseTreeList ex1 dr1 ts idx).2.1 ∧
    (parseTreeList ex2 dr2 ts idx).2.2.map elemView =
      (parseTreeList ex1 dr1 ts idx).2.2.map elemView := by
  cases ts with
  | nil => exact ⟨rfl, rfl⟩
  | cons t rest =>
    have iht := parseTree_congr ex1 ex2 dr1 dr2 hview hdrop t idx
    rw [parseTreeList, parseTreeList]
    rw [iht.2.1]
    have ihr := parseTreeList_congr ex1 ex2 dr1 dr2 hview hdrop rest (parseTree ex1 dr1 t idx).2.1
    cases hh : (parseTree ex1 dr1 t idx).1 with
    | some e =>
      have h2 : (parseTree ex2 dr2 t idx).1.isSome = true := by rw [iht.1, hh]; rfl
      cases hh2 : (parseTree ex2 dr2 t idx).1 with
      | none => rw [hh2] at h2; simp at h2
      | some e2 =>
        simp only [hh, hh2]
        refine ⟨ihr.1, ?_⟩
        simp only [List.map_append]
        rw [iht.2.2, ihr.2]
    | none =>
      have h2 : (parseTree ex2 dr2 t idx).1.isSome = false := by rw [iht.1, hh]; rfl
      cases hh2 : (parseTree ex2 dr2 t idx).1 with
      | some e2 => rw [hh2] at h2; simp at h2
      | none =>
        simp only [hh, hh2]
        refine ⟨ihr.1, ?_⟩
        simp only [List.map_append]
        rw [iht.2.2, ihr.2]

end


/-- One node of an abstract logical hierarchy: element type, the four
display/query strings, the three flags, and integer bounds — the data
the spec calls "the same logical tree" behind both wire formats. -/
structure AbsAttrs where
  type : String
  label : Option String := none
  name : Option String := none
  value : Option String := none
  identifier : Option String := none
  enabled : Bool := true
  visible : Bool := true
  accessible : Bool := true
  x : Int := 0
  y : Int := 0
  width : Int := 0
  height : Int := 0
deriving Repr, DecidableEq

/-- An abstract logical hierarchy. -/
abbrev AbsNode : Type := Rose AbsAttrs

/-- Encode one abstract node as a JSON record (each logical field under
its JSON key, bounds in the nested `rect`). -/
def absJsonAttrs (a : AbsAttrs) : JsonAttrs :=
  { type? := some a.type
    label := a.label
    name := a.name
    value := a.value
    identifier := a.identifier
    isEnabled := some a.enabled
    isVisible := some a.visible
    isAccessible := some a.accessible
    rect := some { x := some a.x, y := some a.y, width := some a.width, height := some a.height } }

/-- A boolean rendered the way the XML format writes flag attributes. -/
def boolAttr (b : Bool) : String := if b then "true" else "false"

/-- Encode one abstract node as an XML element (each logical field
under its plain XML attribute name, flags as `"true"`/`"false"`). -/
def absXmlAttrs (a : AbsAttrs) : XmlAttrs :=
  { tag := "node"
    type? := some a.type
    label := a.label
    name := a.name
    value := a.value
    identifier := a.identifier
    enabled := some (boolAttr a.enabled)
    visible := some (boolAttr a.visible)
    accessible := some (boolAttr a.accessible)
    x := some a.x
    y := some a.y
    width := some a.width
    height := some a.height }

/-- The JSON document encoding an abstract hierarchy. -/
def absToJson (t : AbsNode) : JsonNode := Rose.map absJsonAttrs t

/-- The (well-formed) XML document encoding an abstract hierarchy. -/
def absToXml (t : AbsNode) : XmlNode := Rose.map absXmlAttrs t

theorem pyLower_boolAttr (b : Bool) : (pyLower (boolAttr b) == "true") = b := by
  cases b <;> rfl

theorem abs_attrsView_eq (a : AbsAttrs) :
    attrsView (xmlExtract (absXmlAttrs a)) = attrsView (jsonExtract (absJsonAttrs a)) := by
  rcases a with ⟨ty, lb, nm, vl, id_, en, vi, ac, ax, ay, aw, ah⟩
  rcases lb with _ | s
  · rfl
  · by_cases hs : s = "" <;>
      simp [attrsView, xmlExtract, jsonExtract, absXmlAttrs, absJsonAttrs,
        ElemAttrs.displayTextOf, pyOr, pyTruthy, hs]

theorem abs_visible_eq (a : AbsAttrs) :
    (xmlExtract (absXmlAttrs a)).visible = (jsonExtract (absJsonAttrs a)).visible := by
  simp [xmlExtract, jsonExtract, absXmlAttrs, absJsonAttrs, pyLower_boolAttr]

theorem abs_drop_eq (a : AbsAttrs) (ov : Bool) :
    xmlDrop ov false (xmlExtract (absXmlAttrs a)) =
      jsonDrop ov false (jsonExtract (absJsonAttrs a)) := by
  simp [xmlDrop, jsonDrop, abs_visible_eq]

mutual

/-- Every element on the flat list was accepted by the filter: its
extracted attributes make the drop decision false. -/
theorem parseTree_flat_drop (ex : α → ElemAttrs) (dr : ElemAttrs → Bool) (t : Rose α)
    (idx : Nat) : ∀ e ∈ (parseTree ex dr t idx).2.2, dr e.head.toElemAttrs = false := by
  cases t with
  | mk a cs =>
    rw [parseTree]
    by_cases h : dr (ex a)
    · simp [h]
    · rw [if_neg (by simpa using h)]
      intro e he
      rcases List.mem_cons.mp he with rfl | hmem
      · simpa using h
      · exact parseTreeList_flat_drop ex dr cs (idx + 1) e hmem

theorem parseTreeList_flat_drop (ex : α → ElemAttrs) (dr : ElemAttrs → Bool)
    (ts : List (Rose α)) (idx : Nat) :
    ∀ e ∈ (parseTreeList ex dr ts idx).2.2, dr e.head.toElemAttrs = false := by
  cases ts with
  | nil => simp [parseTreeList]
  | cons t rest =>
    rw [parseTreeList]
    intro e he
    have hsplit : e ∈ (parseTree ex dr t idx).2.2 ∨
        e ∈ (parseTreeList ex dr rest (parseTree ex dr t idx).2.1).2.2 := by
      cases hh : (parseTree ex dr t idx).1 <;> rw [hh] at he <;>
        simpa using List.mem_append.mp (by simpa using he)
    rcases hsplit with hmem | hmem
    · exact parseTree_flat_drop ex dr t idx e hmem
    · exact parseTreeList_flat_drop ex dr rest _ e hmem

end

/-- The flat list carried in a result of `UITreeParser.parse` (empty
when the parse raised). -/
def resultFlat (r : UITreeParser × Except String (Option UIElement × List UIElement)) :
    List UIElement :=
  match r.2 with
  | .ok (_, flat) => flat
  | .error _ => []

/-- The root carried in a result of `UITreeParser.parse`. -/
def resultRoot (r : UITreeParser × Except String (Option UIElement × List UIElement)) :
    Option UIElement :=
  match r.2 with
  | .ok (root, _) => root
  | .error _ => none

/-- The concrete logical tree separating the two formats: a `Button`
root with one child of type `Other` carrying no label and no name. -/
def c1Tree : AbsNode :=
  .mk { type := "Button", label := some "OK" } [.mk { type := "Other" } []]

/-- C1 counterexample: the claim fails as stated. For the two wire
encodings of the logical tree `c1Tree` and arguments
`only_visible := true`, `only_interactable := true`, `parse` yields a
flat list of length 1 from the JSON document but of length 2 from the
XML document (the XML path never applies the non-interactive-type
filter), so the flat lists are not of equal length. -/
theorem C1_counterexample :
    (resultFlat ((UITreeParser.mk 0).parse (.json (absToJson c1Tree)) true true)).length = 1 ∧
    (resultFlat ((UITreeParser.mk 0).parse (.xml (.ok (absToXml c1Tree))) true true)).length = 2 ∧
    (resultFlat ((UITreeParser.mk 0).parse (.json (absToJson c1Tree)) true true)).length ≠
      (resultFlat ((UITreeParser.mk 0).parse (.xml (.ok (absToXml c1Tree))) true true)).length := by
  refine ⟨rfl, rfl, by decide⟩

/-- C1 (amended): for every pair of hierarchy documents that encode
the same logical tree, one as a JSON nested record and one as an XML
string, `UITreeParser.parse` called with the same `only_visible`
argument and with `only_interactable = false` yields flat lists of
equal length whose elements agree pairwise in index, element type,
display text, and bounds (with `only_interactable = true` the JSON
path additionally prunes unlabeled non-interactive-typed nodes, which
the XML path keeps). -/
theorem C1_format_equivalence (p q : UITreeParser) (t : AbsNode) (ov : Bool) :
    (resultFlat (p.parse (.json (absToJson t)) ov false)).length =
      (resultFlat (q.parse (.xml (.ok (absToXml t))) ov false)).length ∧
    (resultFlat (p.parse (.json (absToJson t)) ov false)).map elemView =
      (resultFlat (q.parse (.xml (.ok (absToXml t))) ov false)).map elemView := by
  have hj : resultFlat (p.parse (.json (absToJson t)) ov false) =
      (parseTree jsonExtract (jsonDrop ov false) (absToJson t) 0).2.2 := rfl
  have hx : resultFlat (q.parse (.xml (.ok (absToXml t))) ov false) =
      (parseTree xmlExtract (xmlDrop ov false) (absToXml t) 0).2.2 := rfl
  have hmap :
      (parseTree xmlExtract (xmlDrop ov false) (absToXml t) 0).2.2.map elemView =
        (parseTree jsonExtract (jsonDrop ov false) (absToJson t) 0).2.2.map elemView := by
    rw [absToJson, absToXml, parseTree_map, parseTree_map]
    exact (parseTree_congr (fun a => jsonExtract (absJsonAttrs a))
      (fun a => xmlExtract (absXmlAttrs a)) (jsonDrop ov false) (xmlDrop ov false)
      abs_attrsView_eq (fun a => abs_drop_eq a ov) t 0).2.2
  constructor
  · rw [hj, hx]
    have := congrArg List.length hmap
    simpa using this.symm
  · rw [hj, hx]
    exact hmap.symm

theorem jsonDrop_false_oi {p : ElemAttrs} {ov : Bool} (h : jsonDrop ov true p = false) :
    p.enabled = true ∧ p.accessible = true ∧
      (p.element_type ∈ nonInteractiveTypes → (pyTruthy p.label || pyTruthy p.name) = true) := by
  simp [jsonDrop] at h
  refine ⟨h.1.2.1, h.1.2.2, fun hmem => ?_⟩
  have h3 := h.2 hmem
  by_cases hl : pyTruthy p.label
  · simp [hl]
  · simp [hl, h3 (by simpa using hl)]

theorem xmlDrop_false_oi {p : ElemAttrs} {ov : Bool} (h : xmlDrop ov true p = false) :
    p.enabled = true ∧ p.accessible = true := by
  simp [xmlDrop] at h
  exact ⟨h.2.1, h.2.2⟩

/-- The XML document refuting the claim: a `Button` root whose only
child is a `StaticText` with no label and no name. -/
def c2Xml : XmlNode :=
  .mk { tag := "App", type? := some "Button" } [.mk { tag := "el", type? := some "StaticText" } []]

/-- C2 counterexample: the claim fails as stated for the XML format.
Parsing `c2Xml` with `only_interactable := true` keeps the child of
type `StaticText` even though its label and name are both absent: the
flat list contains both elements. -/
theorem C2_counterexample :
    (resultFlat ((UITreeParser.mk 0).parse (.xml (.ok c2Xml)) true true)).map
        (fun e => (e.element_type, e.label, e.name)) =
      [("Button", none, none), ("StaticText", none, none)] := by
  rfl

/-- C2 (amended): when `parse` is called with `only_interactable` set
to true, every node that is disabled or non-accessible is excluded
(together with its entire subtree, since the flat list is exactly the
pre-order of the returned tree) from both the returned tree and the
flat list, in both input formats; the additional exclusion of nodes
whose type is one of `Other`, `StaticText`, `Group`, `Cell` with both
label and name empty or absent applies only to the JSON input format,
not to the XML format. -/
theorem C2_interactable_pruning (p : UITreeParser) (ov : Bool) :
    (∀ (d : JsonNode) (e : UIElement), e ∈ resultFlat (p.parse (.json d) ov true) →
      e.enabled = true ∧ e.accessible = true ∧
        (e.element_type ∈ nonInteractiveTypes → (pyTruthy e.label || pyTruthy e.name) = true)) ∧
    (∀ d : JsonNode, resultFlat (p.parse (.json d) ov true) =
      (resultRoot (p.parse (.json d) ov true)).elim [] preorder) ∧
    (∀ (x : XmlNode) (e : UIElement), e ∈ resultFlat (p.parse (.xml (.ok x)) ov true) →
      e.enabled = true ∧ e.accessible = true) ∧
    (∀ x : XmlNode, resultFlat (p.parse (.xml (.ok x)) ov true) =
      (resultRoot (p.parse (.xml (.ok x)) ov true)).elim [] preorder) := by
  refine ⟨fun d e he => ?_, fun d => ?_, fun x e he => ?_, fun x => ?_⟩
  · have hdrop := parseTree_flat_drop jsonExtract (jsonDrop ov true) d 0 e he
    exact jsonDrop_false_oi hdrop
  · exact (parseTree_struct jsonExtract (jsonDrop ov true) d 0).2.2
  · have hdrop := parseTree_flat_drop xmlExtract (xmlDrop ov true) x 0 e he
    exact xmlDrop_false_oi hdrop
  · exact (parseTree_struct xmlExtract (xmlDrop ov true) x 0).2.2

/-- The single element that parsing the JSON encoding of `c1Tree` with
`only_interactable := true` retains (the `Button` root; the unlabeled
`Other` child is pruned). -/
def c2Elem : UIElement :=
  Rose.mk (uiData 0 (jsonExtract (absJsonAttrs { type := "Button", label := some "OK" }))) []

/-- C2 witness: the amended theorem applied at a concrete input. The
JSON encoding of `c1Tree` parsed with `only_interactable := true`
keeps exactly the `Button` root, which is enabled, accessible, and not
of a non-interactive type. -/
theorem C2_witness :
    c2Elem.enabled = true ∧ c2Elem.accessible = true ∧
      (c2Elem.element_type ∈ nonInteractiveTypes →
        (pyTruthy c2Elem.label || pyTruthy c2Elem.name) = true) :=
  (C2_interactable_pruning (UITreeParser.mk 3) true).1 (absToJson c1Tree) c2Elem (by
    rw [show resultFlat ((UITreeParser.mk 3).parse (.json (absToJson c1Tree)) true true) =
      [c2Elem] from rfl]
    exact List.mem_singleton.mpr rfl)

/-- C3: for every successful parse producing a flat list, the indices
along the flat list are exactly `0, 1, ..., N-1` in list order (so the
element at position `i` has `index = i`, with no gaps), and the flat
list is exactly the pre-order listing of the returned tree (parent
before descendants, children in source order) — in particular
filtered-out nodes consume no index and appear in neither the tree nor
the flat list. -/
theorem C3_index_contiguity (p : UITreeParser) (src : WdaSource) (ov oi : Bool)
    (root : Option UIElement) (flat : List UIElement)
    (h : (p.parse src ov oi).2 = .ok (root, flat)) :
    flat.map UIElement.index = List.range flat.length ∧
    flat = root.elim [] preorder := by
  have key : ∀ (r : Option UIElement × Nat × List UIElement),
      r.2.2.map UIElement.index = List.range' 0 r.2.2.length ∧
      r.2.2 = r.1.elim [] preorder →
      root = r.1 → flat = r.2.2 →
      flat.map UIElement.index = List.range flat.length ∧ flat = root.elim [] preorder := by
    rintro r ⟨h1, h2⟩ rfl rfl
    exact ⟨by rw [List.range_eq_range']; exact h1, h2⟩
  cases src with
  | json d =>
    have hs := parseTree_struct jsonExtract (jsonDrop ov oi) d 0
    have he : root = (parseTree jsonExtract (jsonDrop ov oi) d 0).1 ∧
        flat = (parseTree jsonExtract (jsonDrop ov oi) d 0).2.2 := by
      have := h
      simp only [UITreeParser.parse, parse_json] at this
      have hpair := Except.ok.inj this
      exact ⟨(congrArg Prod.fst hpair).symm, (congrArg Prod.snd hpair).symm⟩
    exact key _ ⟨hs.2.1, hs.2.2⟩ he.1 he.2
  | xml sx =>
    cases sx with
    | error e => simp [UITreeParser.parse, parse_xml] at h
    | ok x =>
      have hs := parseTree_struct xmlExtract (xmlDrop ov oi) x 0
      have he : root = (parseTree xmlExtract (xmlDrop ov oi) x 0).1 ∧
          flat = (parseTree xmlExtract (xmlDrop ov oi) x 0).2.2 := by
        have := h
        simp only [UITreeParser.parse, parse_xml] at this
        have hpair := Except.ok.inj this
        exact ⟨(congrArg Prod.fst hpair).symm, (congrArg Prod.snd hpair).symm⟩
      exact key _ ⟨hs.2.1, hs.2.2⟩ he.1 he.2

/-- C3 witness: the theorem applied to the concrete parse of the JSON
encoding of `c1Tree` with default arguments. -/
theorem C3_witness :
    (parse_json (absToJson c1Tree) true false 0).2.2.map UIElement.index =
      List.range (parse_json (absToJson c1Tree) true false 0).2.2.length ∧
    (parse_json (absToJson c1Tree) true false 0).2.2 =
      (parse_json (absToJson c1Tree) true false 0).1.elim [] preorder :=
  C3_index_contiguity (UITreeParser.mk 0) (.json (absToJson c1Tree)) true false
    (parse_json (absToJson c1Tree) true false 0).1
    (parse_json (absToJson c1Tree) true false 0).2.2 rfl

/-- C9: `parse` is deterministic and leaks no state between
invocations: its result depends only on the source document and the
two flags, never on the instance state left by any earlier parse (the
counter is reset on entry), and the indices assigned in each call
start at 0 (the flat list carries exactly `0..N-1`). -/
theorem C9_purity (p q : UITreeParser) (src : WdaSource) (ov oi : Bool) :
    (p.parse src ov oi).2 = (q.parse src ov oi).2 ∧
    (resultFlat (p.parse src ov oi)).map UIElement.index =
      List.range (resultFlat (p.parse src ov oi)).length := by
  constructor
  · cases src with
    | json d => rfl
    | xml sx => cases sx <;> rfl
  · cases src with
    | json d =>
      have hs := parseTree_struct jsonExtract (jsonDrop ov oi) d 0
      rw [show resultFlat (p.parse (.json d) ov oi) =
        (parseTree jsonExtract (jsonDrop ov oi) d 0).2.2 from rfl]
      rw [List.range_eq_range']
      exact hs.2.1
    | xml sx =>
      cases sx with
      | error e => rfl
      | ok x =>
        have hs := parseTree_struct xmlExtract (xmlDrop ov oi) x 0
        rw [show resultFlat (p.parse (.xml (.ok x)) ov oi) =
          (parseTree xmlExtract (xmlDrop ov oi) x 0).2.2 from rfl]
        rw [List.range_eq_range']
        exact hs.2.1

/-- The spec's formulation of the display text: the first non-empty
value among label, name, value-as-string, and identifier, in that
order, else the empty string. -/
def specDisplayText (e : UIElement) : String :=
  ((([e.label, e.name, e.value, e.identifier]).map (fun o => o.getD "")).filter
    (fun t => t ≠ "")).headD ""

/-- C5: for every element, `display_text` equals the first non-empty
value among its label, its name, its value converted to a string, and
its identifier, in that order, and equals the empty string when all
four are empty or absent. -/
theorem C5_display_text (e : UIElement) : e.display_text = specDisplayText e := by
  rcases e with ⟨⟨⟨ty, lb, nm, vl, idf, en, vi, ac, ax, ay, aw, ah⟩, idx⟩, cs⟩
  rcases lb with _ | ls <;> rcases nm with _ | ns <;> rcases vl with _ | vs <;>
    rcases idf with _ | ids <;>
    simp only [UIElement.display_text, specDisplayText, UIElement.label, UIElement.name,
      UIElement.value, UIElement.identifier, Rose.head, ElemAttrs.displayTextOf,
      List.map_cons, List.map_nil, Option.getD_some, Option.getD_none, pyTruthy,
      List.filter, decide_not] <;>
    split_ifs <;> simp_all

/-- C6: when `parse` is given an XML document string that is not
well-formed XML (its `ET.fromstring` outcome is a parse error), it
fails with an error carrying the underlying cause, and no partial
result is produced: no tree and no non-empty flat list is returned. -/
theorem C6_malformed_xml (p : UITreeParser) (ov oi : Bool) (err : String) :
    (p.parse (.xml (.error err)) ov oi).2 = .error ("Failed to parse XML: " ++ err) ∧
    resultFlat (p.parse (.xml (.error err)) ov oi) = [] ∧
    resultRoot (p.parse (.xml (.error err)) ov oi) = none :=
  ⟨rfl, rfl, rfl⟩

theorem pyInAux_iff (n h : List Char) : pyInAux n h = true ↔ n <:+: h := by
  induction h with
  | nil => simp [pyInAux, List.isEmpty_iff]
  | cons c rest ih => simp [pyInAux, ih, List.infix_cons_iff]

theorem pyIn_eq (n h : String) : pyIn n h = decide (n.data <:+: h.data) := by
  rw [Bool.eq_iff_iff, decide_eq_true_iff]
  exact pyInAux_iff n.data h.data

theorem pyStartsWith_eq (s pre : String) :
    pyStartsWith s pre = decide (pre.data <+: s.data) := by
  rw [Bool.eq_iff_iff, decide_eq_true_iff]
  simp [pyStartsWith]

/-- The three elements of the spec's matching example. -/
def s1Elem : UIElement := Rose.mk (uiData 0 { element_type := "Button", label := some "Settings" }) []

def s2Elem : UIElement :=
  Rose.mk (uiData 1 { element_type := "Button", label := some "Open Settings" }) []

def s3Elem : UIElement :=
  Rose.mk (uiData 2 { element_type := "Button", label := some "settings panel" }) []

/-- C7 counterexample: the claim fails as stated at the empty string.
An element with display text `"Settings"` is kept by a `text` filter
whose given string is `""` (Python treats the falsy value as the
filter being absent), even though its display text does not equal the
given string. -/
theorem C7_counterexample :
    ([s1Elem].filter (matchesPredicate { text := some "" })) = [s1Elem] ∧
    s1Elem.display_text ≠ "" := by
  exact ⟨rfl, by decide⟩

/-- C7 (amended): in `find_element_by_predicate`, the `text` filter
keeps exactly the elements whose display text equals the given string
case-sensitively provided the given string is non-empty (an
empty-string filter is ignored and keeps every element);
`text_contains` keeps exactly those whose display text contains the
given string case-insensitively, and `text_starts_with` keeps exactly
those whose display text starts with the given prefix
case-insensitively; in particular, over elements with display texts
`"Settings"`, `"Open Settings"`, `"settings panel"`, the predicate
`text="Settings"` matches only the first, `text_contains="settings"`
matches all three, and `text_starts_with="Open"` matches only the
second. -/
theorem C7_text_filters :
    (∀ (e : UIElement) (t : String), t ≠ "" →
      matchesPredicate { text := some t } e = (e.display_text == t)) ∧
    (∀ (e : UIElement) (t : String),
      matchesPredicate { text_contains := some t } e =
        decide ((pyLower t).data <:+: (pyLower e.display_text).data)) ∧
    (∀ (e : UIElement) (t : String),
      matchesPredicate { text_starts_with := some t } e =
        decide ((pyLower t).data <+: (pyLower e.display_text).data)) ∧
    ([s1Elem, s2Elem, s3Elem].filter (matchesPredicate { text := some "Settings" })) = [s1Elem] ∧
    ([s1Elem, s2Elem, s3Elem].filter (matchesPredicate { text_contains := some "settings" })) =
      [s1Elem, s2Elem, s3Elem] ∧
    ([s1Elem, s2Elem, s3Elem].filter (matchesPredicate { text_starts_with := some "Open" })) =
      [s2Elem] := by
  refine ⟨fun e t ht => ?_, fun e t => ?_, fun e t => ?_, rfl, rfl, rfl⟩
  · simp [matchesPredicate, filterOn, ht]
  · by_cases ht : t = ""
    · subst ht
      simp [matchesPredicate, filterOn, pyLower]
    · simp [matchesPredicate, filterOn, ht, pyIn_eq]
  · by_cases ht : t = ""
    · subst ht
      simp [matchesPredicate, filterOn, pyLower]
    · simp [matchesPredicate, filterOn, ht, pyStartsWith_eq]

/-- C7 witness: the non-emptiness hypothesis of the amended theorem
discharged at the concrete string `"Settings"` and first example
element. -/
theorem C7_witness :
    matchesPredicate { text := some "Settings" } s1Elem = (s1Elem.display_text == "Settings") :=
  C7_text_filters.1 s1Elem "Settings" (by decide)

theorem keep_cond_eq (e : UIElement) :
    (e.display_text ≠ "" || alwaysShownTypes.contains e.element_type) =
      decide (e.display_text ≠ "" ∨ e.element_type ∈ alwaysShownTypes) := by
  by_cases h1 : e.display_text = "" <;> by_cases h2 : e.element_type ∈ alwaysShownTypes <;>
    simp [h1, h2]

theorem format_lines_eq_filter (elements : List UIElement) :
    format_flat_list_lines elements false =
      (elements.filter
        (fun e => e.display_text ≠ "" || alwaysShownTypes.contains e.element_type)).map
        flatLine := by
  induction elements with
  | nil => rfl
  | cons e es ih =>
    rw [format_flat_list_lines, List.filter_cons]
    by_cases hc : (e.display_text ≠ "" || alwaysShownTypes.contains e.element_type) = true
    · rw [if_neg (by simp), if_pos hc, hc, if_pos rfl, List.map_cons, ih]
      rfl
    · rw [if_neg (by simp), if_neg hc]
      rw [Bool.not_eq_true] at hc
      rw [hc, if_neg (by simp), ih]
      rfl

/-- The 5 labeled interactive elements and 3 unlabeled decorative
elements of the renderer example. -/
def c8Elements : List UIElement :=
  [Rose.mk (uiData 0 { element_type := "Button", label := some "OK" }) [],
   Rose.mk (uiData 1 { element_type := "Button", label := some "Cancel" }) [],
   Rose.mk (uiData 2 { element_type := "TextField", label := some "Email" }) [],
   Rose.mk (uiData 3 { element_type := "Switch", label := some "Dark mode" }) [],
   Rose.mk (uiData 4 { element_type := "Cell", label := some "Row 1" }) [],
   Rose.mk (uiData 5 { element_type := "Other" }) [],
   Rose.mk (uiData 6 { element_type := "Image" }) [],
   Rose.mk (uiData 7 { element_type := "Group" }) []]

/-- C8: `format_flat_list` in non-verbose mode emits exactly one
output line per element whose display text is non-empty or whose type
is one of `Button`, `TextField`, `SecureTextField`, `Switch` (the
lines are those elements' renderings, in order), and no line for any
other element; in particular a flat list of 5 labeled elements plus 3
unlabeled elements of non-whitelisted types renders to exactly 5
lines. -/
theorem C8_flat_list_lines :
    (∀ elements : List UIElement,
      format_flat_list_lines elements false =
        (elements.filter
          (fun e => decide (e.display_text ≠ "" ∨ e.element_type ∈ alwaysShownTypes))).map
          flatLine) ∧
    (format_flat_list_lines c8Elements false).length = 5 := by
  constructor
  · intro elements
    rw [format_lines_eq_filter]
    congr 1
    apply List.filter_congr
    intro e _
    exact keep_cond_eq e
  · rfl

/-- C4: `find_element_by_predicate` returns null exactly when no
element passes all the supplied filters; otherwise, with the
predicate's non-negative index `n` (default 0), it returns the `n`-th
matching element in flat-list order when `n` is less than the number
of matches, and the last matching element when `n` is at least the
number of matches (clamping, never an out-of-range failure). -/
theorem C4_index_selection (elements : List UIElement) (p : Predicate)
    (h0 : 0 ≤ p.index.getD 0) :
    (find_element_by_predicate elements p = .ok none ↔
      ∀ e ∈ elements, matchesPredicate p e = false) ∧
    (∀ hne : elements.filter (matchesPredicate p) ≠ [],
      ((p.index.getD 0).toNat < (elements.filter (matchesPredicate p)).length →
        find_element_by_predicate elements p =
          .ok ((elements.filter (matchesPredicate p))[(p.index.getD 0).toNat]?)) ∧
      ((elements.filter (matchesPredicate p)).length ≤ (p.index.getD 0).toNat →
        find_element_by_predicate elements p =
          .ok (some ((elements.filter (matchesPredicate p)).getLast hne)))) := by
  simp only [find_element_by_predicate]
  constructor
  · by_cases hms : elements.filter (matchesPredicate p) = []
    · rw [if_pos (by simp [hms])]
      simp only [true_iff, List.filter_eq_nil_iff] at *
      intro e he
      simpa using hms e he
    · rw [if_neg (by simp [hms])]
      constructor
      · intro hcontr
        exfalso
        by_cases hsel : ((elements.filter (matchesPredicate p)).length : Int) ≤ p.index.getD 0 <;>
          [rw [if_pos hsel] at hcontr; rw [if_neg hsel] at hcontr] <;>
          rcases hget : pyListGet (elements.filter (matchesPredicate p)) _ with a | a <;>
          rw [hget] at hcontr <;> simp [Except.map] at hcontr
      · intro hall
        exact absurd (List.filter_eq_nil_iff.mpr (by simpa using hall)) hms
  · intro hne
    rw [if_neg (by simp [hne])]
    have hlen : 0 < (elements.filter (matchesPredicate p)).length := List.length_pos.mpr hne
    constructor
    · intro hlt
      rw [if_neg (by omega)]
      simp only [pyListGet]
      rw [if_neg (by omega : ¬ p.index.getD 0 < 0), if_pos h0,
        List.getElem?_eq_getElem hlt]
      rfl
    · intro hge
      rw [if_pos (by omega)]
      simp only [pyListGet]
      rw [if_pos (by omega : (-1 : Int) < 0),
        if_pos (by omega : (0 : Int) ≤ ((elements.filter (matchesPredicate p)).length : Int) + -1)]
      have hk : (((elements.filter (matchesPredicate p)).length : Int) + -1).toNat =
          (elements.filter (matchesPredicate p)).length - 1 := by omega
      rw [hk, List.getElem?_eq_getElem (by omega)]
      rw [show (elements.filter (matchesPredicate p)).getLast hne =
        (elements.filter (matchesPredicate p))[(elements.filter (matchesPredicate p)).length - 1] from
        List.getLast_eq_getElem _ hne]
      rfl

/-- C4 witness: the theorem applied at a concrete input whose
non-negativity hypothesis is discharged by evaluation: a `Slider`
predicate over a one-element list returns null exactly when nothing
matches. -/
theorem C4_witness :
    find_element_by_predicate [s1Elem] { type? := some "Slider" } = .ok none ↔
      ∀ e ∈ [s1Elem], matchesPredicate { type? := some "Slider" } e = false :=
  (C4_index_selection [s1Elem] { type? := some "Slider" } (by decide)).1

/-- C10: for a predicate whose `index` is a negative integer `n`
against a non-empty match set, `find_element_by_predicate` returns the
end-relative match at position `len + n` when `-len ≤ n` (so
`index = -1` selects the last match), while the clamp-to-last rule
applies only to indices `≥ len`; and `n < -len` causes an out-of-range
failure rather than null or a clamped result. -/
theorem C10_negative_index (elements : List UIElement) (p : Predicate) (n : Int)
    (hn : p.index = some n) (hneg : n < 0)
    (hne : elements.filter (matchesPredicate p) ≠ []) :
    (-(((elements.filter (matchesPredicate p)).length : Int)) ≤ n →
      find_element_by_predicate elements p =
        .ok ((elements.filter (matchesPredicate p))[
          ((((elements.filter (matchesPredicate p)).length : Int)) + n).toNat]?)) ∧
    (n = -1 →
      find_element_by_predicate elements p =
        .ok (some ((elements.filter (matchesPredicate p)).getLast hne))) ∧
    (n < -(((elements.filter (matchesPredicate p)).length : Int)) →
      find_element_by_predicate elements p = .error "list index out of range") := by
  have hlen : 0 < (elements.filter (matchesPredicate p)).length := List.length_pos.mpr hne
  simp only [find_element_by_predicate, hn, Option.getD_some]
  rw [if_neg (by simp [hne]), if_neg (by omega)]
  refine ⟨fun hin => ?_, fun hm1 => ?_, fun hout => ?_⟩
  · simp only [pyListGet]
    rw [if_pos hneg, if_pos (by omega)]
    rw [List.getElem?_eq_getElem (by omega)]
    rfl
  · subst hm1
    simp only [pyListGet]
    rw [if_pos hneg, if_pos (by omega)]
    have hk : (((elements.filter (matchesPredicate p)).length : Int) + -1).toNat =
        (elements.filter (matchesPredicate p)).length - 1 := by omega
    rw [hk, List.getElem?_eq_getElem (by omega)]
    rw [show (elements.filter (matchesPredicate p)).getLast hne =
      (elements.filter (matchesPredicate p))[(elements.filter (matchesPredicate p)).length - 1] from
      List.getLast_eq_getElem _ hne]
    rfl
  · simp only [pyListGet]
    rw [if_pos hneg, if_neg (by omega)]
    rfl

/-- C10 witness: the theorem applied at a concrete input: over two
matching `Button` elements, `index = -1` selects the end-relative
match at position `len - 1` (the last one). -/
theorem C10_witness :
    find_element_by_predicate [s1Elem, s2Elem] { type? := some "Button", index := some (-1) } =
      .ok (([s1Elem, s2Elem].filter
          (matchesPredicate { type? := some "Button", index := some (-1) }))[
        ((([s1Elem, s2Elem].filter
            (matchesPredicate { type? := some "Button", index := some (-1) })).length : Int) +
          -1).toNat]?) :=
  (C10_negative_index [s1Elem, s2Elem] { type? := some "Button", index := some (-1) } (-1)
    rfl (by decide) (fun h => List.noConfusion h)).1 (by decide)

end UITree
